import Mathlib

/-!
Verification of the SameGame board engine (src/SameGame.py).

The grid is embedded column-major: a `Board` is the list of the board's
`width` columns, each column the list of its `height` cells from top
(row 0) to bottom (row `height - 1`).  The Python source stores the grid
row-major (`board[row][col]`); every access here goes through `getCell`,
which performs the index swap, so cell `(r, c)` of the embedding is the
same cell as `board[r][c]` in the source.  A cell holds `-1` for an
empty slot (the source's sentinel) or a color index.
-/

namespace SameGame

abbrev Cell := Int × Int

abbrev Board := List (List Int)

/-- Read cell `(r, c)`; the Python code only reads in-bounds cells, the
`-1` default is the embedding's total extension. -/
def getCell (b : Board) (r c : Int) : Int :=
  if 0 ≤ r ∧ 0 ≤ c then (b.getD c.toNat []).getD r.toNat (-1) else -1

/-- Write cell `(r, c)`; the Python code only writes in-bounds cells. -/
def setCell (b : Board) (r c : Int) (v : Int) : Board :=
  if 0 ≤ r ∧ 0 ≤ c then b.set c.toNat ((b.getD c.toNat []).set r.toNat v) else b

/-- The bounds test `0 <= row < current_board_height and 0 <= col <
current_board_width` from the source. -/
def inBounds (w h : Nat) (r c : Int) : Prop :=
  0 ≤ r ∧ r < (h : Int) ∧ 0 ≤ c ∧ c < (w : Int)

instance (w h : Nat) (r c : Int) : Decidable (inBounds w h r c) := by
  unfold inBounds; infer_instance

/-- One column of `apply_gravity` (source lines 139-147): the loop walks
the column bottom-up keeping an `empty_slots` counter; a non-empty cell
met with `empty_slots > 0` is written `empty_slots` places further down
and its old slot is cleared.  The recursion processes the cells below
`x` first (they are processed earlier by the bottom-up loop) and returns
the pair (empty-slot counter, transformed cells). -/
def gravityColumn : List Int → Nat × List Int
  | [] => (0, [])
  | x :: below =>
    let p := gravityColumn below
    if x = -1 then (p.1 + 1, x :: p.2)
    else if 0 < p.1 then (p.1, (-1) :: p.2.set (p.1 - 1) x)
    else (p.1, x :: p.2)

/-- `apply_gravity` (source lines 137-147): the column loop is
independent per column, so it is the per-column transformation mapped
over the board's columns. -/
def apply_gravity (b : Board) : Board :=
  b.map fun col => (gravityColumn col).2

/-- The `is_column_empty` scan of `shift_columns` (source lines 156-160):
a row loop with early break, i.e. `all (· = -1)`. -/
def is_column_empty (col : List Int) : Bool :=
  col.all fun v => v == -1

/-- `shift_columns` (source lines 149-171): a fresh all-`-1` board of the
same dimensions is filled left-to-right with the non-empty columns, the
old board is then overwritten with it.  The Python loop runs over column
indices `0 .. w-1` of a board of exactly `w` columns; here it folds over
the list of columns. -/
def shift_columns (w h : Nat) (b : Board) : Board :=
  (b.foldl
    (fun acc col =>
      if is_column_empty col then acc else (acc.1.set acc.2 col, acc.2 + 1))
    (List.replicate w (List.replicate h (-1)), 0)).1

/-- `calculate_score` (source lines 174-179). -/
def calculate_score (n : Nat) : Nat :=
  if 2 ≤ n then (n - 2) ^ 2 else 0

/-! ### Characterization of one gravity column -/

/-- The predicate "cell is empty" as a Bool, used for counting/filtering. -/
def isEmptyCell (v : Int) : Bool := v == -1

lemma set_after_replicate (a x : Int) :
    ∀ (e : Nat) (l : List Int),
      (List.replicate (e + 1) a ++ l).set e x = List.replicate e a ++ x :: l := by
  intro e
  induction e with
  | zero => intro l; simp
  | succ n ih =>
    intro l
    rw [List.replicate_succ, List.cons_append, List.set_cons_succ]
    simp only [List.replicate_succ, List.cons_append]
    congr 1
    exact ih l

/-- Master lemma: one gravity pass on a column piles the `-1` cells at
its top and the non-empty cells, in their original order, at its bottom;
the counter is the number of empty cells. -/
lemma gravityColumn_eq (col : List Int) :
    gravityColumn col =
      (col.countP isEmptyCell,
       List.replicate (col.countP isEmptyCell) (-1)
         ++ col.filter (fun v => ! isEmptyCell v)) := by
  induction col with
  | nil => simp [gravityColumn]
  | cons x below ih =>
    by_cases hx : x = -1
    · simp only [gravityColumn, ih, hx, if_pos rfl]
      simp [isEmptyCell, List.countP_cons, List.filter_cons, List.replicate_succ]
    · have hxe : isEmptyCell x = false := by
        simp [isEmptyCell, hx]
      by_cases he : 0 < below.countP isEmptyCell
      · obtain ⟨e, hE⟩ : ∃ e, below.countP isEmptyCell = e + 1 :=
          ⟨below.countP isEmptyCell - 1, by omega⟩
        simp only [gravityColumn, ih, hx, if_neg hx, hE, if_pos (by omega : 0 < e + 1)]
        simp only [Nat.add_sub_cancel]
        rw [set_after_replicate]
        simp [List.countP_cons, List.filter_cons, hxe, hE, List.replicate_succ]
      · have hE : below.countP isEmptyCell = 0 := by omega
        simp only [gravityColumn, ih, hx, if_neg hx, hE, if_neg he]
        simp [List.countP_cons, List.filter_cons, hxe, hE]

lemma countP_empty_add_filter_length (col : List Int) :
    col.countP isEmptyCell + (col.filter (fun v => ! isEmptyCell v)).length
      = col.length := by
  induction col with
  | nil => simp
  | cons x below ih =>
    rw [List.countP_cons, List.filter_cons]
    cases hx : isEmptyCell x <;> simp [hx] <;> omega

lemma gravityColumn_length (col : List Int) :
    (gravityColumn col).2.length = col.length := by
  rw [gravityColumn_eq]
  simp only [List.length_append, List.length_replicate]
  exact countP_empty_add_filter_length col

/-! ### Characterization of the column shift -/

lemma set_at_append_length {α : Type} (A : List α) (l : List α) (x : α) :
    (A ++ l).set A.length x = A ++ l.set 0 x := by
  induction A with
  | nil => simp
  | cons a A ih => simp [ih]

lemma shift_foldl_eq (h : Nat) (b : Board) :
    ∀ (K : Board) (m : Nat), b.length ≤ m →
      (b.foldl
        (fun acc col =>
          if is_column_empty col then acc else (acc.1.set acc.2 col, acc.2 + 1))
        (K ++ List.replicate m (List.replicate h (-1)), K.length)).1
      = K ++ b.filter (fun col => ! is_column_empty col)
          ++ List.replicate
              (m - (b.filter (fun col => ! is_column_empty col)).length)
              (List.replicate h (-1)) := by
  induction b with
  | nil => intro K m _; simp
  | cons col rest ih =>
    intro K m hm
    rw [List.foldl_cons, List.filter_cons]
    by_cases hc : is_column_empty col
    · simp only [hc, if_pos rfl, Bool.not_true, if_neg (by simp : ¬ (false = true))]
      exact ih K m (by simpa using Nat.le_of_succ_le hm)
    · have hm1 : 1 ≤ m := le_trans (by simp) hm
      obtain ⟨m', rfl⟩ : ∃ m', m = m' + 1 := ⟨m - 1, by omega⟩
      rw [if_neg hc]
      have hset :
          (K ++ List.replicate (m' + 1) (List.replicate h (-1))).set K.length col
            = (K ++ [col]) ++ List.replicate m' (List.replicate h (-1)) := by
        rw [set_at_append_length, List.replicate_succ, List.set_cons_zero]
        simp
      have hcount : K.length + 1 = (K ++ [col]).length := by simp
      rw [hset, hcount]
      rw [ih (K ++ [col]) m' (by simpa using Nat.succ_le_succ_iff.mp hm)]
      have hb : (Bool.not (is_column_empty col)) = true := by
        simp [Bool.eq_false_iff.mpr hc]
      rw [if_pos hb]
      simp only [List.append_assoc, List.singleton_append, List.length_cons]
      congr 3
      omega

lemma shift_columns_eq (w h : Nat) (b : Board) (hb : b.length ≤ w) :
    shift_columns w h b
      = b.filter (fun col => ! is_column_empty col)
        ++ List.replicate
            (w - (b.filter (fun col => ! is_column_empty col)).length)
            (List.replicate h (-1)) := by
  have := shift_foldl_eq h b [] w hb
  simpa [shift_columns] using this

/-! ### Gravity fixed points -/

lemma countP_empty_replicate (e : Nat) :
    (List.replicate e (-1 : Int)).countP isEmptyCell = e := by
  induction e with
  | zero => simp
  | succ n ih => simp [List.replicate_succ, List.countP_cons, isEmptyCell, ih]

lemma filter_nonEmpty_replicate (e : Nat) :
    (List.replicate e (-1 : Int)).filter (fun v => ! isEmptyCell v) = [] := by
  induction e with
  | zero => simp
  | succ n ih => simp [List.replicate_succ, List.filter_cons, isEmptyCell, ih]

lemma gravityColumn_fixed (e : Nat) (f : List Int)
    (hf : ∀ v ∈ f, isEmptyCell v = false) :
    (gravityColumn (List.replicate e (-1) ++ f)).2
      = List.replicate e (-1) ++ f := by
  rw [gravityColumn_eq]
  have hc : (List.replicate e (-1 : Int) ++ f).countP isEmptyCell = e := by
    rw [List.countP_append, countP_empty_replicate]
    have : f.countP isEmptyCell = 0 := by
      rw [List.countP_eq_zero]
      intro v hv
      simp [hf v hv]
    omega
  have hfE : (List.replicate e (-1 : Int) ++ f).filter (fun v => ! isEmptyCell v)
      = f := by
    rw [List.filter_append, filter_nonEmpty_replicate, List.nil_append]
    apply List.filter_eq_self.mpr
    intro v hv
    simp [hf v hv]
  rw [hc, hfE]

lemma gravityColumn_idem (col : List Int) :
    (gravityColumn (gravityColumn col).2).2 = (gravityColumn col).2 := by
  rw [gravityColumn_eq col]
  apply gravityColumn_fixed
  intro v hv
  have := List.mem_filter.mp hv
  simpa using this.2

lemma gravityColumn_empty_col (h : Nat) :
    (gravityColumn (List.replicate h (-1))).2 = List.replicate h (-1) := by
  have := gravityColumn_fixed h [] (by simp)
  simpa using this

lemma gravity_filter_eq (col : List Int) :
    (gravityColumn col).2.filter (fun v => ! isEmptyCell v)
      = col.filter (fun v => ! isEmptyCell v) := by
  rw [gravityColumn_eq, List.filter_append, filter_nonEmpty_replicate,
    List.nil_append]
  exact List.filter_eq_self.mpr (fun v hv => (List.mem_filter.mp hv).2)

lemma apply_gravity_getD (b : Board) (c : Nat) :
    (apply_gravity b).getD c [] = (gravityColumn (b.getD c [])).2 := by
  simp only [apply_gravity, List.getD_eq_getElem?_getD, List.getElem?_map]
  cases hbc : b[c]? with
  | none => simp [gravityColumn]
  | some col => simp

lemma grav_shape_getD_low (e : Nat) (f : List Int) (i : Nat) (hi : i < e) :
    (List.replicate e (-1 : Int) ++ f).getD i (-1) = -1 := by
  rw [List.getD_eq_getElem?_getD,
    List.getElem?_append_left (by simpa using hi),
    List.getElem?_replicate_of_lt hi]
  rfl

lemma grav_shape_getD_high (e : Nat) (f : List Int)
    (hf : ∀ v ∈ f, isEmptyCell v = false)
    (j : Nat) (hj1 : e ≤ j) (hj2 : j < e + f.length) :
    (List.replicate e (-1 : Int) ++ f).getD j (-1) ≠ -1 := by
  have hjf : j - e < f.length := by omega
  rw [List.getD_eq_getElem?_getD,
    List.getElem?_append_right (by simpa using hj1)]
  simp only [List.length_replicate]
  rw [List.getElem?_eq_getElem hjf]
  have hm := hf _ (List.getElem_mem hjf)
  simpa [isEmptyCell] using hm

lemma is_column_empty_replicate (n : Nat) :
    is_column_empty (List.replicate n (-1 : Int)) = true := by
  simp [is_column_empty, List.all_eq_true]

/-! ### Claim theorems about the compactor -/

/-- Claim C5: after `apply_gravity`, every column keeps its length, its
non-empty cells (read top to bottom) are exactly the pre-gravity
non-empty cells in the same order, and below any non-empty cell every
cell is non-empty (so the non-empty cells form a contiguous bottom
block with no empty cell below a non-empty one). -/
theorem gravity_stability (b : Board) (c : Nat) :
    ((apply_gravity b).getD c []).length = (b.getD c []).length
    ∧ ((apply_gravity b).getD c []).filter (fun v => ! isEmptyCell v)
        = (b.getD c []).filter (fun v => ! isEmptyCell v)
    ∧ ∀ i j : Nat, i < j → j < ((apply_gravity b).getD c []).length →
        ((apply_gravity b).getD c []).getD i (-1) ≠ -1 →
        ((apply_gravity b).getD c []).getD j (-1) ≠ -1 := by
  rw [apply_gravity_getD]
  refine ⟨gravityColumn_length _, gravity_filter_eq _, ?_⟩
  intro i j hij hj hi
  rw [gravityColumn_eq] at hj hi ⊢
  set e := (b.getD c []).countP isEmptyCell with he
  set f := (b.getD c []).filter (fun v => ! isEmptyCell v) with hfdef
  have hf : ∀ v ∈ f, isEmptyCell v = false := by
    intro v hv
    simpa using (List.mem_filter.mp hv).2
  have hie : ¬ i < e := by
    intro hlt
    exact hi (grav_shape_getD_low e f i hlt)
  have hjlen : j < e + f.length := by
    simpa using hj
  exact grav_shape_getD_high e f hf j (by omega) hjlen

/-- Claim C6: after `shift_columns` the grid keeps its dimensions, the
previously non-empty columns sit unchanged and in order starting at
column 0, every column from there to the right edge is fully empty, and
an empty column is never followed by a non-empty one (no interior fully
empty column unless everything to its right, hence the repacked content,
is absent). -/
theorem shift_ordering (w h : Nat) (b : Board) (hw : b.length = w)
    (hh : ∀ col ∈ b, col.length = h) :
    (shift_columns w h b).length = w
    ∧ (∀ col ∈ shift_columns w h b, col.length = h)
    ∧ (shift_columns w h b).take
        (b.filter (fun col => ! is_column_empty col)).length
        = b.filter (fun col => ! is_column_empty col)
    ∧ (∀ j : Nat, (b.filter (fun col => ! is_column_empty col)).length ≤ j →
        j < w → is_column_empty ((shift_columns w h b).getD j []) = true)
    ∧ (∀ i j : Nat, i < j → j < w →
        is_column_empty ((shift_columns w h b).getD i []) = true →
        is_column_empty ((shift_columns w h b).getD j []) = true) := by
  have hK : (b.filter (fun col => ! is_column_empty col)).length ≤ w :=
    hw ▸ List.length_filter_le _ b
  have heq := shift_columns_eq w h b (le_of_eq hw)
  set K := b.filter (fun col => ! is_column_empty col) with hKdef
  have hedge : ∀ j : Nat, K.length ≤ j → j < w →
      is_column_empty ((shift_columns w h b).getD j []) = true := by
    intro j h1 h2
    rw [heq, List.getD_eq_getElem?_getD,
      List.getElem?_append_right (by simpa using h1)]
    rw [List.getElem?_replicate_of_lt (by omega)]
    exact is_column_empty_replicate h
  refine ⟨?_, ?_, ?_, hedge, ?_⟩
  · rw [heq]; simp; omega
  · intro col hc
    rw [heq] at hc
    rcases List.mem_append.mp hc with hl | hr
    · exact hh col (List.mem_filter.mp hl).1
    · rcases List.mem_replicate.mp hr with ⟨-, rfl⟩
      simp
  · rw [heq]; exact List.take_left K _
  · intro i j hij hjw hi
    by_cases hiK : i < K.length
    · exfalso
      have : (shift_columns w h b).getD i [] = K[i] := by
        rw [heq, List.getD_eq_getElem?_getD,
          List.getElem?_append_left hiK, List.getElem?_eq_getElem hiK]
        rfl
      rw [this] at hi
      have hprop : ∀ col ∈ K, (! is_column_empty col) = true := by
        rw [hKdef]
        exact fun col hcol => (List.mem_filter.mp hcol).2
      have := hprop _ (List.getElem_mem hiK)
      simp only [Bool.not_eq_true'] at this
      rw [this] at hi
      exact Bool.false_ne_true hi
    · exact hedge j (by omega) hjw

/-- Claim C8: running `apply_gravity` and `shift_columns` again on a
grid that has just undergone that pair leaves the grid unchanged. -/
theorem compaction_pair_idem (w h : Nat) (b : Board) (hw : b.length = w)
    (hh : ∀ col ∈ b, col.length = h) :
    shift_columns w h (apply_gravity (shift_columns w h (apply_gravity b)))
      = shift_columns w h (apply_gravity b) := by
  have hg_len : (apply_gravity b).length = w := by
    simpa [apply_gravity] using hw
  set g := apply_gravity b with hg
  set K := g.filter (fun col => ! is_column_empty col) with hKdef
  have hKw : K.length ≤ w := hg_len ▸ List.length_filter_le _ g
  have h1 : shift_columns w h g
      = K ++ List.replicate (w - K.length) (List.replicate h (-1)) :=
    shift_columns_eq w h g (le_of_eq hg_len)
  rw [h1]
  have h2 : apply_gravity
      (K ++ List.replicate (w - K.length) (List.replicate h (-1)))
      = K ++ List.replicate (w - K.length) (List.replicate h (-1)) := by
    simp only [apply_gravity, List.map_append]
    congr 1
    · have hcong : ∀ col ∈ K, (gravityColumn col).2 = id col := by
        intro col hcol
        have hcf : col ∈ g.filter (fun col => ! is_column_empty col) := by
          rw [← hKdef]; exact hcol
        have hcg : col ∈ g := (List.mem_filter.mp hcf).1
        have hcm : col ∈ (apply_gravity b) := hg ▸ hcg
        rcases List.mem_map.mp hcm with ⟨col₀, -, rfl⟩
        exact gravityColumn_idem col₀
      rw [List.map_congr_left hcong, List.map_id]
    · have hcong : ∀ col ∈ List.replicate (w - K.length)
          (List.replicate h (-1 : Int)), (gravityColumn col).2 = id col := by
        intro col hcol
        rcases List.mem_replicate.mp hcol with ⟨-, rfl⟩
        exact gravityColumn_empty_col h
      rw [List.map_congr_left hcong, List.map_id]
  rw [h2]
  have hlen : (K ++ List.replicate (w - K.length)
      (List.replicate h (-1 : Int))).length ≤ w := by
    simp only [List.length_append, List.length_replicate]
    omega
  rw [shift_columns_eq w h _ hlen]
  have hfil : (K ++ List.replicate (w - K.length)
        (List.replicate h (-1 : Int))).filter
        (fun col => ! is_column_empty col) = K := by
    rw [List.filter_append]
    have hK2 : K.filter (fun col => ! is_column_empty col) = K := by
      apply List.filter_eq_self.mpr
      intro col hcol
      have hcf : col ∈ g.filter (fun col => ! is_column_empty col) := by
        rw [← hKdef]; exact hcol
      exact (List.mem_filter.mp hcf).2
    have hrep : (List.replicate (w - K.length)
        (List.replicate h (-1 : Int))).filter
        (fun col => ! is_column_empty col) = [] := by
      rw [List.filter_eq_nil_iff]
      intro col hcol
      rcases List.mem_replicate.mp hcol with ⟨-, rfl⟩
      simp [is_column_empty_replicate]
    rw [hK2, hrep, List.append_nil]
  rw [hfil]

lemma flatten_replicate_filter (n h : Nat) :
    ((List.replicate n (List.replicate h (-1 : Int))).flatten).filter
      (fun v => ! isEmptyCell v) = [] := by
  induction n with
  | zero => simp
  | succ m ih =>
    rw [List.replicate_succ]
    simp [List.filter_append, ih, filter_nonEmpty_replicate]

lemma empty_col_filter (col : List Int) (hcol : is_column_empty col = true) :
    col.filter (fun v => ! isEmptyCell v) = [] := by
  rw [List.filter_eq_nil_iff]
  intro v hv
  have hall : ∀ x ∈ col, x = -1 := by
    simpa [is_column_empty, List.all_eq_true] using hcol
  simp [isEmptyCell, hall v hv]

lemma flatten_filter_keep (b : Board) :
    ((b.filter (fun col => ! is_column_empty col)).flatten).filter
        (fun v => ! isEmptyCell v)
      = (b.flatten).filter (fun v => ! isEmptyCell v) := by
  induction b with
  | nil => simp
  | cons col rest ih =>
    rw [List.filter_cons]
    by_cases hc : is_column_empty col = true
    · rw [if_neg (by simp [hc])]
      rw [List.flatten_cons, List.filter_append, empty_col_filter col hc,
        List.nil_append, ih]
    · have hcb : (! is_column_empty col) = true := by
        simp [Bool.eq_false_iff.mpr hc]
      rw [if_pos hcb, List.flatten_cons, List.flatten_cons,
        List.filter_append, List.filter_append, ih]

/-- Claim C10: compaction never creates, destroys or recolors blocks:
`apply_gravity` keeps, column by column, the multiset (here even the
sequence) of non-empty cell values, and `shift_columns` keeps the
multiset of non-empty cell values of the whole grid. -/
theorem compaction_preserves_cells (w h : Nat) (b : Board)
    (hb : b.length ≤ w) :
    (∀ c : Nat, (((apply_gravity b).getD c []).filter
          (fun v => ! isEmptyCell v)).Perm
        ((b.getD c []).filter (fun v => ! isEmptyCell v)))
    ∧ (((shift_columns w h b).flatten).filter
          (fun v => ! isEmptyCell v)).Perm
        ((b.flatten).filter (fun v => ! isEmptyCell v)) := by
  constructor
  · intro c
    rw [apply_gravity_getD, gravity_filter_eq]
  · rw [shift_columns_eq w h b hb, List.flatten_append, List.filter_append,
      flatten_replicate_filter, List.append_nil, flatten_filter_keep]

/-! ### Concrete example board for the compaction witnesses -/

/-- A 3-column, 3-row example grid (column-major). -/
def Bex : Board := [[2, -1, 3], [1, -1, -1], [-1, -1, -1]]

/-! ### The region finder (`find_connected_blocks`, source lines 107-135) -/

/-- The neighbor list `[(r - 1, c), (r + 1, c), (r, c - 1), (r, c + 1)]`
from source line 128. -/
def neighborsOf (r c : Int) : List Cell :=
  [(r - 1, c), (r + 1, c), (r, c - 1), (r, c + 1)]

/-- The inner neighbor loop (source lines 129-134): each neighbor that is
in bounds, has the sought color and is not yet visited is appended to
the queue and added to the visited set (modelled as a list). -/
def addNeighbors (w h : Nat) (b : Board) (ci : Int) :
    List Cell → List Cell → List Cell → List Cell × List Cell
  | [], q, vis => (q, vis)
  | n :: rest, q, vis =>
    if inBounds w h n.1 n.2 ∧ getCell b n.1 n.2 = ci ∧ n ∉ vis
    then addNeighbors w h b ci rest (q ++ [n]) (n :: vis)
    else addNeighbors w h b ci rest q vis

/-- The BFS `while queue:` loop (source lines 123-134), with an explicit
fuel argument.  Each loop iteration pops one queue entry, and every
queue entry was placed in the visited set when enqueued, so the loop
runs at most once per cell of the board; the fuel `w * h + 1` passed by
`find_connected_blocks` therefore never runs out. -/
def bfsLoop (w h : Nat) (b : Board) (ci : Int) :
    Nat → List Cell → List Cell → List Cell → List Cell
  | 0, _, _, conn => conn
  | _ + 1, [], _, conn => conn
  | fuel + 1, n :: rest, vis, conn =>
    let p := addNeighbors w h b ci (neighborsOf n.1 n.2) rest vis
    bfsLoop w h b ci fuel p.1 p.2 (conn ++ [n])

/-- `find_connected_blocks` (source lines 107-135): guard clauses for an
out-of-bounds start or a start cell that is empty or of the wrong
color, then a BFS from the start cell.  Callers pass
`board[row][col]` as `ci`. -/
def find_connected_blocks (w h : Nat) (b : Board) (sr sc : Int)
    (ci : Int) : List Cell :=
  if ¬ inBounds w h sr sc then []
  else if getCell b sr sc = -1 ∨ getCell b sr sc ≠ ci then []
  else bfsLoop w h b ci (w * h + 1) [(sr, sc)] [(sr, sc)] []

/-- `check_game_over` (source lines 181-190): the double loop with an
early `return False` is the `all` of its per-cell condition. -/
def check_game_over (w h : Nat) (b : Board) : Bool :=
  (List.range h).all fun r =>
    (List.range w).all fun c =>
      decide (getCell b (r : Int) (c : Int) = -1
        ∨ (find_connected_blocks w h b (r : Int) (c : Int)
            (getCell b (r : Int) (c : Int))).length < 2)

/-- A cell reachable from `o` through a chain of 4-adjacent steps, each
landing on an in-bounds cell of color `ci`. -/
inductive Reachable (w h : Nat) (b : Board) (ci : Int) (o : Cell) : Cell → Prop
  | base : Reachable w h b ci o o
  | step (p n : Cell) : Reachable w h b ci o p → n ∈ neighborsOf p.1 p.2 →
      inBounds w h n.1 n.2 → getCell b n.1 n.2 = ci → Reachable w h b ci o n

/-! ### BFS loop invariants -/

lemma addNeighbors_decomp (w h : Nat) (b : Board) (ci : Int) :
    ∀ (ns q vis : List Cell), ∃ new : List Cell,
      (addNeighbors w h b ci ns q vis).1 = q ++ new
      ∧ (addNeighbors w h b ci ns q vis).2 = new.reverse ++ vis
      ∧ new.Nodup
      ∧ (∀ p ∈ new, p ∉ vis)
      ∧ (∀ p ∈ new, p ∈ ns ∧ inBounds w h p.1 p.2 ∧ getCell b p.1 p.2 = ci) := by
  intro ns
  induction ns with
  | nil =>
    intro q vis
    exact ⟨[], by simp [addNeighbors]⟩
  | cons n rest ih =>
    intro q vis
    by_cases hadm : inBounds w h n.1 n.2 ∧ getCell b n.1 n.2 = ci ∧ n ∉ vis
    · obtain ⟨new', h1, h2, h3, h4, h5⟩ := ih (q ++ [n]) (n :: vis)
      refine ⟨n :: new', ?_, ?_, ?_, ?_, ?_⟩
      · rw [addNeighbors, if_pos hadm, h1, List.append_assoc]
        rfl
      · rw [addNeighbors, if_pos hadm, h2]
        simp
      · refine List.Nodup.cons ?_ h3
        intro hn
        exact h4 n hn (List.mem_cons_self n vis)
      · intro p hp
        rcases List.mem_cons.mp hp with rfl | hp'
        · exact hadm.2.2
        · intro hpv
          exact h4 p hp' (List.mem_cons_of_mem n hpv)
      · intro p hp
        rcases List.mem_cons.mp hp with rfl | hp'
        · exact ⟨List.mem_cons_self _ _, hadm.1, hadm.2.1⟩
        · obtain ⟨hm, hb2, hc2⟩ := h5 p hp'
          exact ⟨List.mem_cons_of_mem n hm, hb2, hc2⟩
    · obtain ⟨new', h1, h2, h3, h4, h5⟩ := ih q vis
      refine ⟨new', ?_, ?_, h3, h4, ?_⟩
      · rw [addNeighbors, if_neg hadm, h1]
      · rw [addNeighbors, if_neg hadm, h2]
      · intro p hp
        obtain ⟨hm, hb2, hc2⟩ := h5 p hp
        exact ⟨List.mem_cons_of_mem n hm, hb2, hc2⟩

lemma bfsLoop_conn_prefix (w h : Nat) (b : Board) (ci : Int) :
    ∀ (fuel : Nat) (q vis conn : List Cell),
      conn <+: bfsLoop w h b ci fuel q vis conn := by
  intro fuel
  induction fuel with
  | zero => intro q vis conn; exact List.prefix_refl conn
  | succ f ih =>
    intro q vis conn
    match q with
    | [] => exact List.prefix_refl conn
    | n :: rest =>
      exact List.IsPrefix.trans (List.prefix_append conn [n]) (ih _ _ _)

lemma bfsLoop_mem_invariant (w h : Nat) (b : Board) (ci : Int)
    (P : Cell → Prop)
    (hclose : ∀ p, P p → ∀ n ∈ neighborsOf p.1 p.2,
      inBounds w h n.1 n.2 → getCell b n.1 n.2 = ci → P n) :
    ∀ (fuel : Nat) (q vis conn : List Cell),
      (∀ p ∈ q, P p) → (∀ p ∈ conn, P p) →
      ∀ p ∈ bfsLoop w h b ci fuel q vis conn, P p := by
  intro fuel
  induction fuel with
  | zero => intro q vis conn _ hconn; exact hconn
  | succ f ih =>
    intro q vis conn hq hconn
    match q with
    | [] => exact hconn
    | n :: rest =>
      obtain ⟨new, h1, -, -, -, h5⟩ :=
        addNeighbors_decomp w h b ci (neighborsOf n.1 n.2) rest vis
      show ∀ p ∈ bfsLoop w h b ci f _ _ (conn ++ [n]), P p
      apply ih
      · rw [h1]
        intro p hp
        rcases List.mem_append.mp hp with hl | hr
        · exact hq p (List.mem_cons_of_mem n hl)
        · obtain ⟨hm, hb2, hc2⟩ := h5 p hr
          exact hclose n (hq n (List.mem_cons_self n rest)) p hm hb2 hc2
      · intro p hp
        rcases List.mem_append.mp hp with hl | hr
        · exact hconn p hl
        · rcases List.mem_singleton.mp hr with rfl
          exact hq p (List.mem_cons_self p rest)

lemma bfsLoop_nodup (w h : Nat) (b : Board) (ci : Int) :
    ∀ (fuel : Nat) (q vis conn : List Cell),
      (conn ++ q).Nodup → (∀ p ∈ conn ++ q, p ∈ vis) →
      (bfsLoop w h b ci fuel q vis conn).Nodup := by
  intro fuel
  induction fuel with
  | zero =>
    intro q vis conn hnd _
    exact (List.nodup_append.mp hnd).1
  | succ f ih =>
    intro q vis conn hnd hvis
    match q with
    | [] =>
      simpa using (List.nodup_append.mp hnd).1
    | n :: rest =>
      obtain ⟨new, h1, h2, h3, h4, -⟩ :=
        addNeighbors_decomp w h b ci (neighborsOf n.1 n.2) rest vis
      show ((bfsLoop w h b ci f _ _ (conn ++ [n]))).Nodup
      apply ih
      · rw [h1, show conn ++ [n] ++ (rest ++ new)
            = (conn ++ n :: rest) ++ new by simp]
        rw [List.nodup_append]
        refine ⟨hnd, h3, ?_⟩
        intro a ha hanew
        exact h4 a hanew (hvis a ha)
      · rw [h1, h2]
        intro p hp
        have hp' : p ∈ (conn ++ n :: rest) ++ new := by
          have : conn ++ [n] ++ (rest ++ new) = (conn ++ n :: rest) ++ new := by
            simp
          rw [← this]
          exact hp
        rcases List.mem_append.mp hp' with hl | hr
        · exact List.mem_append_right _ (hvis p hl)
        · exact List.mem_append_left _ (List.mem_reverse.mpr hr)

/-! ### Claim theorems about the region finder and the terminal check -/

/-- Claim C9: `find_connected_blocks`, queried the way its callers query
it (with the clicked cell's own value as the color), returns `[]` for an
out-of-bounds or empty start cell, and otherwise returns a
duplicate-free list of in-bounds, same-colored, 4-connected cells that
contains the origin cell. -/
theorem findRegion_defensive (w h : Nat) (b : Board) (r c : Int) :
    (¬ inBounds w h r c →
      find_connected_blocks w h b r c (getCell b r c) = [])
    ∧ (getCell b r c = -1 →
      find_connected_blocks w h b r c (getCell b r c) = [])
    ∧ (inBounds w h r c → getCell b r c ≠ -1 →
      (r, c) ∈ find_connected_blocks w h b r c (getCell b r c)
      ∧ (find_connected_blocks w h b r c (getCell b r c)).Nodup
      ∧ ∀ p ∈ find_connected_blocks w h b r c (getCell b r c),
          inBounds w h p.1 p.2 ∧ getCell b p.1 p.2 = getCell b r c
          ∧ Reachable w h b (getCell b r c) (r, c) p) := by
  refine ⟨?_, ?_, ?_⟩
  · intro hout
    rw [find_connected_blocks, if_pos hout]
  · intro hempty
    rw [find_connected_blocks]
    by_cases hout : inBounds w h r c
    · rw [if_neg (by exact not_not_intro hout), if_pos (Or.inl hempty)]
    · rw [if_pos hout]
  · intro hin hne
    have hguard : find_connected_blocks w h b r c (getCell b r c)
        = bfsLoop w h b (getCell b r c) (w * h + 1) [(r, c)] [(r, c)] [] := by
      rw [find_connected_blocks, if_neg (not_not_intro hin),
        if_neg (by push_neg; exact ⟨hne, rfl⟩)]
    refine ⟨?_, ?_, ?_⟩
    · rw [hguard]
      have hunf : bfsLoop w h b (getCell b r c) (w * h + 1)
            [(r, c)] [(r, c)] []
          = bfsLoop w h b (getCell b r c) (w * h)
            (addNeighbors w h b (getCell b r c)
              (neighborsOf r c) [] [(r, c)]).1
            (addNeighbors w h b (getCell b r c)
              (neighborsOf r c) [] [(r, c)]).2
            [(r, c)] := rfl
      rw [hunf]
      have hpre := bfsLoop_conn_prefix w h b (getCell b r c) (w * h)
        (addNeighbors w h b (getCell b r c) (neighborsOf r c) [] [(r, c)]).1
        (addNeighbors w h b (getCell b r c) (neighborsOf r c) [] [(r, c)]).2
        [(r, c)]
      exact hpre.sublist.subset (List.mem_singleton_self (r, c))
    · rw [hguard]
      apply bfsLoop_nodup
      · simp
      · simp
    · rw [hguard]
      apply bfsLoop_mem_invariant w h b (getCell b r c)
        (fun p => inBounds w h p.1 p.2 ∧ getCell b p.1 p.2 = getCell b r c
          ∧ Reachable w h b (getCell b r c) (r, c) p)
      · intro p hp n hmem hb2 hc2
        exact ⟨hb2, hc2, Reachable.step p n hp.2.2 hmem hb2 hc2⟩
      · intro p hp
        rcases List.mem_singleton.mp hp with rfl
        exact ⟨hin, rfl, Reachable.base⟩
      · intro p hp
        exact absurd hp (List.not_mem_nil p)

/-- Witness for C9: each guard clause and the positive case exercised
at concrete inputs on the example board. -/
theorem findRegion_defensive_witness :
    find_connected_blocks 3 3 Bex 5 0 (getCell Bex 5 0) = []
    ∧ find_connected_blocks 3 3 Bex 0 2 (getCell Bex 0 2) = []
    ∧ (0, 0) ∈ find_connected_blocks 3 3 Bex 0 0 (getCell Bex 0 0)
    ∧ (find_connected_blocks 3 3 Bex 0 0 (getCell Bex 0 0)).Nodup :=
  ⟨(findRegion_defensive 3 3 Bex 5 0).1 (by decide),
   (findRegion_defensive 3 3 Bex 0 2).2.1 (by decide),
   ((findRegion_defensive 3 3 Bex 0 0).2.2 (by decide) (by decide)).1,
   ((findRegion_defensive 3 3 Bex 0 0).2.2 (by decide) (by decide)).2.1⟩

/-- Claim C7: the terminal check returns `true` exactly when no
non-empty in-bounds cell yields a region of size at least 2 from
`find_connected_blocks` (equivalently, it returns `false` as soon as
some cell has a removable region). -/
theorem check_game_over_iff (w h : Nat) (b : Board) :
    check_game_over w h b = true ↔
      ∀ r c : Nat, r < h → c < w → getCell b (r : Int) (c : Int) ≠ -1 →
        (find_connected_blocks w h b (r : Int) (c : Int)
          (getCell b (r : Int) (c : Int))).length < 2 := by
  unfold check_game_over
  simp only [List.all_eq_true, List.mem_range, decide_eq_true_eq]
  constructor
  · intro H r c hr hc hne
    rcases H r hr c hc with h1 | h2
    · exact absurd h1 hne
    · exact h2
  · intro H r hr c hc
    by_cases hne : getCell b (r : Int) (c : Int) = -1
    · exact Or.inl hne
    · exact Or.inr (H r c hr hc hne)

/-- Witness for C7: applied on a 2-by-2 board on which no two adjacent
cells share a color. -/
theorem check_game_over_iff_witness :
    (find_connected_blocks 2 2 [[1, 2], [2, 1]] 0 0
      (getCell [[1, 2], [2, 1]] 0 0)).length < 2 :=
  (check_game_over_iff 2 2 [[1, 2], [2, 1]]).mp (by decide)
    0 0 (by decide) (by decide) (by decide)

/-! ### Game state and the controller paths of `game_loop` -/

/-- The mutable globals of the source that the board engine touches:
`board`, `score`, `selected_blocks`, `game_over` (source lines 38-41). -/
structure GameState where
  board : Board
  score : Nat
  selected_blocks : List Cell
  game_over : Bool
deriving DecidableEq

/-- The removal loop `for r, c in selected_blocks: board[r][c] = -1`
(source lines 355-356). -/
def remove_cells (b : Board) (cells : List Cell) : Board :=
  cells.foldl (fun acc p => setCell acc p.1 p.2 (-1)) b

/-- The random fill of source line 89, `random.randint(0, nc - 1)`
modelled by an arbitrary per-cell color source reduced into range
(column-major like the rest of the embedding). -/
def mk_board (w h nc : Nat) (rand : Nat → Nat → Int) : Board :=
  (List.range w).map fun c => (List.range h).map fun r => rand r c % (nc : Int)

/-- `create_board` (source lines 57-92).  The Python function declares
`global board, score, game_over, SIDE_MARGIN, TOP_MARGIN,
DYNAMIC_BLOCK_SIZE, COLORS` (line 62) but NOT `selected_blocks`, so its
`selected_blocks = []` on line 91 binds a function-local name and the
global pending selection survives unchanged.  Block size, margins and
the color palette are UI layout and are not modelled. -/
def create_board (w h nc : Nat) (rand : Nat → Nat → Int)
    (s : GameState) : GameState :=
  { board := mk_board w h nc rand, score := 0,
    selected_blocks := s.selected_blocks, game_over := false }

/-- The restart keypress path (source lines 307-312): `create_board()`
followed by `selected_blocks = []` inside `game_loop`, whose own scope
does declare `selected_blocks` global. -/
def restart_key (w h nc : Nat) (rand : Nat → Nat → Int)
    (s : GameState) : GameState :=
  { create_board w h nc rand s with selected_blocks := [] }

/-- The Start-Game-from-menu path (source lines 317-321): only
`create_board()` is called. -/
def menu_start_game (w h nc : Nat) (rand : Nat → Nat → Int)
    (s : GameState) : GameState :=
  create_board w h nc rand s

/-- `len(ALL_POSSIBLE_COLORS)` (source lines 16-22). -/
def palette_size : Nat := 5

/-- Settings-menu handlers (source lines 236-278): each button moves one
setting by one, clamped at its bound. -/
def dec_colors (nc : Nat) : Nat := if 4 < nc then nc - 1 else nc

def inc_colors (nc : Nat) : Nat := if nc < palette_size then nc + 1 else nc

def dec_width (w : Nat) : Nat := if 5 < w then w - 1 else w

def inc_width (w : Nat) : Nat := if w < 25 then w + 1 else w

def dec_height (h : Nat) : Nat := if 5 < h then h - 1 else h

def inc_height (h : Nat) : Nat := if h < 20 then h + 1 else h

/-- Modelled from the spec (its sections 3 and 6): the configuration
bounds width in [5, 25], height in [5, 20], numColors in
[4, paletteSize].  The source has no validation predicate of its own;
this spec-side notion is what the claims compare the code against. -/
def config_valid (w h nc : Nat) : Prop :=
  5 ≤ w ∧ w ≤ 25 ∧ 5 ≤ h ∧ h ≤ 20 ∧ 4 ≤ nc ∧ nc ≤ palette_size

instance (w h nc : Nat) : Decidable (config_valid w h nc) := by
  unfold config_valid; infer_instance

/-- The in-play click handler (source lines 337-369): bounds check,
empty-cell guard, region computation, two-phase confirm with Python
list equality, removal followed by gravity, column shift and the
game-over recheck. -/
def handleClick (w h : Nat) (s : GameState) (row col : Int) : GameState :=
  if s.game_over then s
  else if inBounds w h row col then
    if getCell s.board row col = -1 then s
    else
      let cur := find_connected_blocks w h s.board row col
        (getCell s.board row col)
      if 2 ≤ cur.length then
        if s.selected_blocks = cur then
          let b3 := shift_columns w h
            (apply_gravity (remove_cells s.board s.selected_blocks))
          { board := b3,
            score := s.score + calculate_score cur.length,
            selected_blocks := [],
            game_over := check_game_over w h b3 }
        else { s with selected_blocks := cur }
      else { s with selected_blocks := [] }
  else s

/-! ### Example boards and states for the controller claims -/

/-- 5-by-5 board (column-major): color 0 at cells (0,0) and (0,1), a
1/2 checkerboard everywhere else, so the only region of size at least 2
is the pair of zeros. -/
def B1 : Board :=
  [[0, 2, 1, 2, 1], [0, 1, 2, 1, 2], [1, 2, 1, 2, 1],
   [2, 1, 2, 1, 2], [1, 2, 1, 2, 1]]

/-- The pair region of `B1` pending (the BFS list from cell (0,0)). -/
def S1 : GameState :=
  { board := B1, score := 0, selected_blocks := [(0, 0), (0, 1)],
    game_over := false }

/-- `B1` with cell (0,2) cleared to empty. -/
def B3 : Board :=
  [[0, 2, 1, 2, 1], [0, 1, 2, 1, 2], [-1, 2, 1, 2, 1],
   [2, 1, 2, 1, 2], [1, 2, 1, 2, 1]]

/-- The pair region of `B3` pending. -/
def S3 : GameState :=
  { board := B3, score := 0, selected_blocks := [(0, 0), (0, 1)],
    game_over := false }

/-! ### Claim theorems about the controller -/

/-- Counterexample to Claim C1: with region [(0,0),(0,1)] pending
(the BFS list from (0,0)), activating cell (0,1) of that very region
computes the same region as a coordinate set, yet the click does not
confirm: nothing is removed, the score does not move, and the
freshly-ordered list replaces the pending one. -/
theorem set_equal_click_does_not_confirm :
    S1.selected_blocks = find_connected_blocks 5 5 B1 0 0 (getCell B1 0 0)
    ∧ (find_connected_blocks 5 5 B1 0 1 (getCell B1 0 1)).all
        (fun p => decide (p ∈ S1.selected_blocks)) = true
    ∧ S1.selected_blocks.all
        (fun p => decide
          (p ∈ find_connected_blocks 5 5 B1 0 1 (getCell B1 0 1))) = true
    ∧ (handleClick 5 5 S1 0 1).board = S1.board
    ∧ (handleClick 5 5 S1 0 1).score = S1.score
    ∧ getCell (handleClick 5 5 S1 0 1).board 0 0 = 0
    ∧ (handleClick 5 5 S1 0 1).selected_blocks
        = find_connected_blocks 5 5 B1 0 1 (getCell B1 0 1) := by
  decide

/-- Claim C1 (amended): a second activation confirms exactly when the
freshly computed BFS list coincides with the pending list (Python list
equality, order included); since the BFS list always begins with the
activated cell, re-activating the cell that produced the pending list
confirms (removal, scoring, gravity, column shift, terminal recheck),
while any activation whose BFS list differs — in particular one from a
different origin cell of the same region — replaces the pending
selection without mutating the board. -/
theorem confirm_requires_identical_list (w h : Nat) (s : GameState)
    (row col : Int)
    (hng : s.game_over = false)
    (hin : inBounds w h row col)
    (hne : getCell s.board row col ≠ -1)
    (hlen : 2 ≤ (find_connected_blocks w h s.board row col
      (getCell s.board row col)).length) :
    (s.selected_blocks
        = find_connected_blocks w h s.board row col (getCell s.board row col) →
      handleClick w h s row col =
        { board := shift_columns w h
            (apply_gravity (remove_cells s.board s.selected_blocks)),
          score := s.score + calculate_score
            (find_connected_blocks w h s.board row col
              (getCell s.board row col)).length,
          selected_blocks := [],
          game_over := check_game_over w h (shift_columns w h
            (apply_gravity (remove_cells s.board s.selected_blocks))) })
    ∧ (s.selected_blocks
        ≠ find_connected_blocks w h s.board row col (getCell s.board row col) →
      handleClick w h s row col =
        { s with selected_blocks :=
            (find_connected_blocks w h s.board row col
              (getCell s.board row col)) })
    ∧ (find_connected_blocks w h s.board row col
        (getCell s.board row col)).head? = some (row, col) := by
  refine ⟨?_, ?_, ?_⟩
  · intro hsel
    unfold handleClick
    rw [if_neg (by simp [hng]), if_pos hin, if_neg hne]
    simp only
    rw [if_pos hlen, if_pos hsel]
  · intro hsel
    unfold handleClick
    rw [if_neg (by simp [hng]), if_pos hin, if_neg hne]
    simp only
    rw [if_pos hlen, if_neg hsel]
  · have hguard : find_connected_blocks w h s.board row col
        (getCell s.board row col)
        = bfsLoop w h s.board (getCell s.board row col) (w * h + 1)
            [(row, col)] [(row, col)] [] := by
      rw [find_connected_blocks, if_neg (not_not_intro hin),
        if_neg (by push_neg; exact ⟨hne, rfl⟩)]
    rw [hguard]
    have hunf : bfsLoop w h s.board (getCell s.board row col) (w * h + 1)
          [(row, col)] [(row, col)] []
        = bfsLoop w h s.board (getCell s.board row col) (w * h)
          (addNeighbors w h s.board (getCell s.board row col)
            (neighborsOf row col) [] [(row, col)]).1
          (addNeighbors w h s.board (getCell s.board row col)
            (neighborsOf row col) [] [(row, col)]).2
          [(row, col)] := rfl
    rw [hunf]
    obtain ⟨t, ht⟩ := bfsLoop_conn_prefix w h s.board
      (getCell s.board row col) (w * h)
      (addNeighbors w h s.board (getCell s.board row col)
        (neighborsOf row col) [] [(row, col)]).1
      (addNeighbors w h s.board (getCell s.board row col)
        (neighborsOf row col) [] [(row, col)]).2
      [(row, col)]
    rw [← ht]
    rfl

/-- Witness for the amended C1: re-activating the origin cell of the
pending pair of `S1` confirms and removes it. -/
theorem confirm_requires_identical_list_witness :
    handleClick 5 5 S1 0 0 =
      { board := shift_columns 5 5
          (apply_gravity (remove_cells S1.board S1.selected_blocks)),
        score := S1.score + calculate_score
          (find_connected_blocks 5 5 S1.board 0 0
            (getCell S1.board 0 0)).length,
        selected_blocks := [],
        game_over := check_game_over 5 5 (shift_columns 5 5
          (apply_gravity (remove_cells S1.board S1.selected_blocks))) }
    ∧ (find_connected_blocks 5 5 S1.board 0 0
        (getCell S1.board 0 0)).head? = some (0, 0) :=
  ⟨(confirm_requires_identical_list 5 5 S1 0 0 rfl (by decide) (by decide)
      (by decide)).1 (by decide),
   (confirm_requires_identical_list 5 5 S1 0 0 rfl (by decide) (by decide)
      (by decide)).2.2⟩

/-- Claim C2 (code bug): `create_board` is supposed to clear the pending
selection (its line 91 even says so) but assigns a local variable
because `selected_blocks` is missing from the `global` declaration, so
the menu Start-Game path hands the new board a stale pending selection;
only the restart keypress clears it, and it does so in `game_loop`
itself. -/
theorem reset_keeps_stale_selection :
    (menu_start_game 20 10 5 (fun _ _ => 0)
      { board := [], score := 7, selected_blocks := [(0, 0), (0, 1)],
        game_over := true }).selected_blocks = [(0, 0), (0, 1)]
    ∧ (restart_key 20 10 5 (fun _ _ => 0)
      { board := [], score := 7, selected_blocks := [(0, 0), (0, 1)],
        game_over := true }).selected_blocks = [] :=
  ⟨rfl, rfl⟩

/-- Counterexample to Claim C3: with a selection pending, activating the
empty cell (0,2) of `B3` is a complete no-op — the pending selection is
retained, not cleared. -/
theorem empty_click_keeps_selection :
    getCell B3 0 2 = -1
    ∧ handleClick 5 5 S3 0 2 = S3
    ∧ S3.selected_blocks ≠ [] := by
  decide

/-- Claim C3 (amended): while playing, an activation of a non-empty
in-bounds cell whose region has size below 2 clears the pending
selection and leaves the board, score and terminal flag unchanged; an
activation of an EMPTY cell, or outside the board, leaves the whole
state unchanged, pending selection included. -/
theorem small_region_click (w h : Nat) (s : GameState) (row col : Int)
    (hng : s.game_over = false) :
    (¬ inBounds w h row col → handleClick w h s row col = s)
    ∧ (inBounds w h row col → getCell s.board row col = -1 →
        handleClick w h s row col = s)
    ∧ (inBounds w h row col → getCell s.board row col ≠ -1 →
        (find_connected_blocks w h s.board row col
          (getCell s.board row col)).length < 2 →
        handleClick w h s row col = { s with selected_blocks := [] }) := by
  refine ⟨?_, ?_, ?_⟩
  · intro hout
    unfold handleClick
    rw [if_neg (by simp [hng]), if_neg hout]
  · intro hin hempty
    unfold handleClick
    rw [if_neg (by simp [hng]), if_pos hin, if_pos hempty]
  · intro hin hne hlen
    unfold handleClick
    rw [if_neg (by simp [hng]), if_pos hin, if_neg hne]
    simp only
    rw [if_neg (by omega)]

/-- Witness for the amended C3: an isolated cell click clears the
pending selection of `S1`; an empty-cell click leaves `S3` unchanged. -/
theorem small_region_click_witness :
    handleClick 5 5 S1 2 2 = { S1 with selected_blocks := [] }
    ∧ handleClick 5 5 S3 0 2 = S3 :=
  ⟨(small_region_click 5 5 S1 2 2 rfl).2.2 (by decide) (by decide)
      (by decide),
   (small_region_click 5 5 S3 0 2 rfl).2.1 (by decide) (by decide)⟩

/-- Counterexample to Claim C4: `create_board` with width 3 — outside
the spec bound [5, 25] — raises nothing and allocates a full 3-column
board. -/
theorem config_unvalidated :
    ¬ config_valid 3 5 4
    ∧ (create_board 3 5 4 (fun _ _ => 0)
        { board := [], score := 0, selected_blocks := [],
          game_over := false }).board.length = 3
    ∧ (create_board 3 5 4 (fun _ _ => 0)
        { board := [], score := 0, selected_blocks := [],
          game_over := false }).board ≠ [] := by
  exact ⟨by decide, rfl, by decide⟩

/-- Claim C4 (amended): `create_board` performs no configuration
validation and always allocates a full width-by-height board with
colors in range; the bounds width in [5,25], height in [5,20],
numColors in [4, paletteSize] are enforced solely by the settings-menu
handlers, each of which preserves them. -/
theorem config_handling (w h nc : Nat) (rand : Nat → Nat → Int)
    (s : GameState) (hnc : 0 < nc) :
    (create_board w h nc rand s).board.length = w
    ∧ (∀ col ∈ (create_board w h nc rand s).board,
        col.length = h ∧ ∀ v ∈ col, 0 ≤ v ∧ v < (nc : Int))
    ∧ (config_valid w h nc →
        config_valid (dec_width w) h nc
        ∧ config_valid (inc_width w) h nc
        ∧ config_valid w (dec_height h) nc
        ∧ config_valid w (inc_height h) nc
        ∧ config_valid w h (dec_colors nc)
        ∧ config_valid w h (inc_colors nc)) := by
  have hnz : (nc : Int) ≠ 0 := by
    exact_mod_cast Nat.pos_iff_ne_zero.mp hnc
  have hpos : (0 : Int) < nc := by exact_mod_cast hnc
  refine ⟨?_, ?_, ?_⟩
  · simp [create_board, mk_board]
  · intro col hcol
    simp only [create_board, mk_board, List.mem_map] at hcol
    obtain ⟨c, -, rfl⟩ := hcol
    constructor
    · simp
    · intro v hv
      simp only [List.mem_map] at hv
      obtain ⟨r, -, rfl⟩ := hv
      exact ⟨Int.emod_nonneg _ hnz, Int.emod_lt_of_pos _ hpos⟩
  · intro hcv
    obtain ⟨h1, h2, h3, h4, h5, h6⟩ := hcv
    refine ⟨?_, ?_, ?_, ?_, ?_, ?_⟩ <;>
      simp only [config_valid, dec_width, inc_width, dec_height, inc_height,
        dec_colors, inc_colors, palette_size] at h6 ⊢ <;>
      split_ifs <;> omega

/-- Witness for the amended C4 at a concrete configuration. -/
theorem config_handling_witness :
    (create_board 20 10 5 (fun _ _ => 0)
      { board := [], score := 0, selected_blocks := [],
        game_over := false }).board.length = 20
    ∧ config_valid (dec_width 20) 10 5 :=
  ⟨(config_handling 20 10 5 (fun _ _ => 0)
      { board := [], score := 0, selected_blocks := [],
        game_over := false } (by decide)).1,
   ((config_handling 20 10 5 (fun _ _ => 0)
      { board := [], score := 0, selected_blocks := [],
        game_over := false } (by decide)).2.2 (by decide)).1⟩

/-- Witness for C5 at a concrete input. -/
theorem gravity_stability_witness :
    ((apply_gravity Bex).getD 0 []).filter (fun v => ! isEmptyCell v)
        = (Bex.getD 0 []).filter (fun v => ! isEmptyCell v)
    ∧ ((apply_gravity Bex).getD 0 []).getD 2 (-1) ≠ -1 :=
  ⟨(gravity_stability Bex 0).2.1,
   (gravity_stability Bex 0).2.2 1 2 (by decide) (by decide) (by decide)⟩

/-- Witness for C6 at a concrete input. -/
theorem shift_ordering_witness :
    (shift_columns 3 3 Bex).length = 3
    ∧ is_column_empty ((shift_columns 3 3 Bex).getD 2 []) = true :=
  ⟨(shift_ordering 3 3 Bex rfl (by decide)).1,
   (shift_ordering 3 3 Bex rfl (by decide)).2.2.2.1 2 (by decide) (by decide)⟩

/-- Witness for C8 at a concrete input. -/
theorem compaction_pair_idem_witness :
    shift_columns 3 3 (apply_gravity (shift_columns 3 3 (apply_gravity Bex)))
      = shift_columns 3 3 (apply_gravity Bex) :=
  compaction_pair_idem 3 3 Bex rfl (by decide)

/-- Witness for C10 at a concrete input. -/
theorem compaction_preserves_cells_witness :
    (((apply_gravity Bex).getD 0 []).filter
        (fun v => ! isEmptyCell v)).Perm
      ((Bex.getD 0 []).filter (fun v => ! isEmptyCell v))
    ∧ (((shift_columns 3 3 Bex).flatten).filter
        (fun v => ! isEmptyCell v)).Perm
      ((Bex.flatten).filter (fun v => ! isEmptyCell v)) :=
  ⟨(compaction_preserves_cells 3 3 Bex (by decide)).1 0,
   (compaction_preserves_cells 3 3 Bex (by decide)).2⟩

end SameGame
